import Mathlib

/-!
Verification of the SnapFaaS global scheduler resource manager
(`src/snapfaas/src/sched/resource_manager.rs`) and the per-worker
request-handling loop (`src/snapfaas/src/worker.rs`) against their
natural-language specification.

The Rust code is shallowly embedded: `HashMap`s become insertion-ordered
association lists, `Vec` becomes `List` (with `Vec::pop` taking the last
element), channel sends are recorded as explicit message lists, and
operations that can panic (`unwrap`, `usize` underflow) return `Option`
with `none` standing for the panic.
-/

set_option autoImplicit false

namespace Snapfaas

/-- A socket address: an IP (modelled as `Nat`) plus a port.  The node
identity of an address is its IP, as in `Node(addr.ip())`. -/
structure SockAddr where
  ip : Nat
  port : Nat
  deriving DecidableEq, Repr

/-- `NodeInfo` from resource_manager.rs: per-node total/free memory and
the dirty flag. -/
structure NodeInfo where
  node : Nat
  total_mem : Nat
  free_mem : Nat
  dirty : Bool
  deriving DecidableEq, Repr

/-- `NodeInfo::new`: fresh node info with `dirty = false` and
defaulted (zero) memory counters. -/
def NodeInfo.new (node : Nat) : NodeInfo :=
  { node := node, total_mem := 0, free_mem := 0, dirty := false }

/-- `Worker` from resource_manager.rs: a socket address plus a reply
channel; the channel is modelled by an identifier. -/
structure Worker where
  addr : SockAddr
  sender : Nat
  deriving DecidableEq, Repr

/-- `ResourceInfo` from rpc.rs: per-function cached-VM counts plus the
node's total and free memory.  The `stats` hash map is modelled as an
association list. -/
structure ResourceInfo where
  stats : List (String × Nat)
  total_mem : Nat
  free_mem : Nat
  deriving DecidableEq, Repr

/-- `ResourceManager` from resource_manager.rs.  Hash maps become
association lists; `wait_list` entries are (uuid, channel id) pairs. -/
structure ResourceManager where
  info : List (Nat × NodeInfo)
  cached : List (String × List (Nat × Nat))
  idle : List (Nat × List Worker)
  wait_list : List (Nat × Nat)
  deriving DecidableEq, Repr

/-- `ResourceManager::new()` / `Default::default()`. -/
def ResourceManager.new : ResourceManager :=
  { info := [], cached := [], idle := [], wait_list := [] }

/-- Association-list lookup, the embedding of `HashMap::get`. -/
def alookup {α β : Type} [DecidableEq α] (l : List (α × β)) (k : α) : Option β :=
  (l.find? (fun e => e.1 = k)).map (·.2)

/-- Replace the value stored at a key, the embedding of in-place
mutation through `HashMap::get_mut`.  A no-op when the key is absent. -/
def aset {α β : Type} [DecidableEq α] (l : List (α × β)) (k : α) (v : β) :
    List (α × β) :=
  l.map (fun e => if e.1 = k then (k, v) else e)

/-- Remove a key, the embedding of `HashMap::remove`. -/
def aremove {α β : Type} [DecidableEq α] (l : List (α × β)) (k : α) :
    List (α × β) :=
  l.filter (fun e => ¬ e.1 = k)

/-- `Vec::pop`: remove and return the LAST element. -/
def vecPop {α : Type} (v : List α) : Option α × List α :=
  match v.getLast? with
  | none => (none, v)
  | some x => (some x, v.dropLast)

namespace ResourceManager

/-- `ResourceManager::try_add_node`: insert a default `NodeInfo` when the
node is unknown; return `true` iff it was newly inserted. -/
def try_add_node (rm : ResourceManager) (node : Nat) : Bool × ResourceManager :=
  let has_node := (alookup rm.info node).isSome
  (!has_node,
   if has_node then rm
   else { rm with info := rm.info ++ [(node, NodeInfo.new node)] })

/-- `ResourceManager::add_idle`: register the worker's node and push the
worker onto the node's idle list. -/
def add_idle (rm : ResourceManager) (addr : SockAddr) (sender : Nat) :
    ResourceManager :=
  let node := addr.ip
  let rm := (rm.try_add_node node).2
  let worker : Worker := { addr := addr, sender := sender }
  match alookup rm.idle node with
  | some v => { rm with idle := aset rm.idle node (v ++ [worker]) }
  | none => { rm with idle := rm.idle ++ [(node, [worker])] }

/-- The `iter_mut().find(..).map(..)` scan inside `find_idle`: walk the
cached entries of one function, look each node up in `info`
(`unwrap` panics — `none` — when absent), stop at the first non-dirty
node and decrement its count (`usize` underflow — `none` — when the
count is 0).  Returns the found node (if any) and the updated list. -/
def scanClean (info : List (Nat × NodeInfo)) :
    List (Nat × Nat) → Option (Option Nat × List (Nat × Nat))
  | [] => some (none, [])
  | (n, k) :: rest =>
    match alookup info n with
    | none => none
    | some i =>
      if i.dirty then
        (scanClean info rest).map (fun r => (r.1, (n, k) :: r.2))
      else if k = 0 then none
      else some (some n, (n, k - 1) :: rest)

/-- `ResourceManager::find_idle`.  Outer `none` is a panic; inner
`Option Worker` is the function's return value. -/
def find_idle (rm : ResourceManager) (function : String) :
    Option (Option Worker × ResourceManager) :=
  let step1 : Option (Option Nat × ResourceManager) :=
    match alookup rm.cached function with
    | none => some (none, rm)
    | some v =>
      match scanClean rm.info v with
      | none => none
      | some (fst, v') =>
        -- `v.retain(|n| n.1 != 0)`; the function key itself stays.
        some (fst,
          { rm with cached := aset rm.cached function (v'.filter (fun e => e.2 ≠ 0)) })
  match step1 with
  | none => none
  | some (some n, rm) =>
    -- Cached branch: pop one idle worker from node `n`.
    let p : Option Worker × List (Nat × List Worker) :=
      match alookup rm.idle n with
      | some v => ((vecPop v).1, aset rm.idle n (vecPop v).2)
      | none => (none, rm.idle)
    some (p.1, { rm with idle := p.2.filter (fun e => ¬ e.2.isEmpty) })
  | some (none, rm) =>
    -- Fallback: pop from the first idle list (`values_mut().next()`),
    -- then mark the popped worker's node dirty.
    match rm.idle with
    | [] => some (none, rm)
    | (n₀, v₀) :: rest =>
      let idle1 := (n₀, (vecPop v₀).2) :: rest
      match (vecPop v₀).1 with
      | none => some (none, { rm with idle := idle1.filter (fun e => ¬ e.2.isEmpty) })
      | some w =>
        match alookup rm.info w.addr.ip with
        | none => none
        | some ni =>
          some (some w,
            { rm with
              info := aset rm.info w.addr.ip { ni with dirty := true },
              idle := idle1.filter (fun e => ¬ e.2.isEmpty) })

/-- `ResourceManager::reset`: pop every idle worker, sending each a
`Terminate` task (pops take workers from the back of each list), then
prune the now-empty idle lists.  Returns the terminated workers in
send order together with the new state. -/
def reset (rm : ResourceManager) : List Worker × ResourceManager :=
  ((rm.idle.map (fun e => e.2.reverse)).flatten, { rm with idle := [] })

/-- The `iter_mut().find(|n| n.0 == node)` + `n.1 = num` update inside
`ResourceManager::update`: set the count of the FIRST entry for the
node, if any. -/
def setFirstNode : List (Nat × Nat) → Nat → Nat → List (Nat × Nat)
  | [], _, _ => []
  | e :: rest, node, num =>
    if e.1 = node then (node, num) :: rest else e :: setFirstNode rest node num

/-- One iteration of the stats loop in `ResourceManager::update` for the
pair `(f, num_cached)`. -/
def applyStat (node : Nat) (cached : List (String × List (Nat × Nat)))
    (f : String) (num : Nat) : List (String × List (Nat × Nat)) :=
  match alookup cached f with
  | some nodes =>
    let nodes' :=
      if (nodes.find? (fun e => e.1 = node)).isSome
      then setFirstNode nodes node num
      else nodes ++ [(node, num)]
    aset cached f (nodes'.filter (fun e => e.2 > 0))
  | none =>
    if num > 0 then cached ++ [(f, [(node, num)])] else cached

/-- `ResourceManager::update`: register the node (clearing its dirty bit
when it already existed), overwrite its memory counters, and reconcile
the cached-VM counts from `info.stats`.  `none` models the `unwrap`
panics (which in fact never fire, see `update_isSome`). -/
def update (rm : ResourceManager) (addr : Nat) (ri : ResourceInfo) :
    Option ResourceManager :=
  let node := addr
  let s := rm.try_add_node node
  let rm := s.2
  let info1 : Option (List (Nat × NodeInfo)) :=
    if s.1 then some rm.info
    else
      match alookup rm.info node with
      | none => none
      | some ni => some (aset rm.info node { ni with dirty := false })
  match info1 with
  | none => none
  | some info1 =>
    match alookup info1 node with
    | none => none
    | some ni =>
      let info2 := aset info1 node
        { ni with total_mem := ri.total_mem, free_mem := ri.free_mem }
      some { rm with
        info := info2,
        cached := ri.stats.foldl (fun c fs => applyStat node c fs.1 fs.2) rm.cached }

/-- `Vec::swap_remove(pos)`: overwrite position `pos` with the last
element and drop the last element. -/
def swapRemove (v : List (Nat × Nat)) (pos : Nat) : List (Nat × Nat) :=
  match v.getLast? with
  | none => v
  | some last => (v.set pos last).dropLast

/-- The per-function body of `ResourceManager::remove`: swap-remove the
first entry whose node matches, if any. -/
def removeNodeEntry (v : List (Nat × Nat)) (node : Nat) : List (Nat × Nat) :=
  match v.findIdx? (fun e => e.1 = node) with
  | none => v
  | some pos => swapRemove v pos

/-- `ResourceManager::remove`: drop the node's pair from every cached
entry list (swap-remove), then drop the node from the registry and the
idle pool. -/
def remove (rm : ResourceManager) (addr : Nat) : ResourceManager :=
  { info := aremove rm.info addr,
    cached := rm.cached.map (fun e => (e.1, removeNodeEntry e.2 addr)),
    idle := aremove rm.idle addr,
    wait_list := rm.wait_list }

end ResourceManager

/-! ### Worker request-handling loop (worker.rs) -/

/-- Modelled from the spec: the local resource manager error type
(`crate::resource_manager::Error`) is not under src/; §7 lists
`InsufficientEvict`, `LowMemory(need)` and `FunctionNotExist` as the
resource errors, with all other errors mapped to `Dropped` by the
worker, represented here by a catch-all constructor. -/
inductive RmError where
  | InsufficientEvict
  | LowMemory (need : Nat)
  | FunctionNotExist
  | Other
  deriving DecidableEq, Repr

/-- Modelled from the spec: the VM error type (`crate::vm::Error`) is
not under src/; §7 lists `ProcessSpawn`, `VsockListen`, `VsockRead`,
`VsockWrite` as the retriable VM errors, with a catch-all for the
rest. -/
inductive VmError where
  | ProcessSpawn
  | VsockListen
  | VsockRead
  | VsockWrite
  | Other
  deriving DecidableEq, Repr

/-- The VM handle as seen by `handle_request`: only `is_launched` is
observed before launching. -/
structure Vm where
  launched : Bool
  deriving DecidableEq, Repr

/-- `RequestStatus` from request.rs as used by `handle_request`. -/
inductive RequestStatus where
  | SentToVM (rsp : String)
  | ProcessRequestFailed
  | ResourceExhausted
  | FunctionNotExist
  | Dropped
  deriving DecidableEq, Repr

/-- Messages sent on `vm_req_sender` by `handle_request`. -/
inductive Msg where
  | GetVm
  | DeleteVm
  | ReleaseVm
  deriving DecidableEq, Repr

/-- The environment of one loop iteration of `handle_request`: the
result of the `GetVm` round trip, of `vm.launch`, and of
`vm.process_req`, respectively. -/
structure AttemptEnv where
  getVm : Except RmError Vm
  launch : Except VmError Unit
  procReq : Except VmError String

/-- The retry loop of `handle_request` in worker.rs, indexed by the
attempt counter `i` and with `fuel = 5 - i`, so that the `if i == 5`
check becomes `fuel = 0`.  Returns the final `RequestStatus` together
with the messages sent on `vm_req_sender` in order. -/
def processAttempts (env : Nat → AttemptEnv) : Nat → Nat → RequestStatus × List Msg
  | _, 0 => (.ProcessRequestFailed, [])
  | i, fuel + 1 =>
    let a := env i
    match a.getVm with
    | .error e =>
      (match e with
       | .InsufficientEvict => .ResourceExhausted
       | .LowMemory _ => .ResourceExhausted
       | .FunctionNotExist => .FunctionNotExist
       | .Other => .Dropped,
       [Msg.GetVm])
    | .ok vm =>
      if vm.launched then
        match a.procReq with
        | .ok rsp => (.SentToVM rsp, [Msg.GetVm, Msg.ReleaseVm])
        | .error _ =>
          let r := processAttempts env (i + 1) fuel
          (r.1, Msg.GetVm :: Msg.DeleteVm :: r.2)
      else
        match a.launch with
        | .error _ =>
          let r := processAttempts env (i + 1) fuel
          (r.1, Msg.GetVm :: Msg.DeleteVm :: r.2)
        | .ok _ =>
          match a.procReq with
          | .ok rsp => (.SentToVM rsp, [Msg.GetVm, Msg.ReleaseVm])
          | .error _ =>
            let r := processAttempts env (i + 1) fuel
            (r.1, Msg.GetVm :: Msg.DeleteVm :: r.2)

/-- `handle_request` from worker.rs (its VM acquire/launch/invoke retry
loop): `i` starts at 0 and the loop breaks with `ProcessRequestFailed`
when `i` reaches 5. -/
def handle_request (env : Nat → AttemptEnv) : RequestStatus × List Msg :=
  processAttempts env 0 5

/-! ### Invariants and derived observations -/

namespace ResourceManager

/-- The keys of an association list. -/
def keys {α β : Type} (l : List (α × β)) : List α := l.map Prod.fst

/-- A cache index is good for a node predicate `P` when every entry has
a positive count and a `P`-node, and no function lists a node twice. -/
def GoodCached (P : Nat → Prop) (c : List (String × List (Nat × Nat))) : Prop :=
  ∀ fv ∈ c, (∀ e ∈ fv.2, 0 < e.2 ∧ P e.1) ∧ (keys fv.2).Nodup

/-- Cache-index invariant as maintained by the code: every cached entry
has a positive count and a registered node, and no function lists the
same node twice.  (The spec additionally demands that a function with
an empty entry list be removed from the index; the code does not do
that, see the C3 counterexample.) -/
def CachedOk (rm : ResourceManager) : Prop :=
  GoodCached (fun n => (alookup rm.info n).isSome) rm.cached

/-- The spec's additional pruning clause: no function key maps to an
empty entry list. -/
def CachedNonempty (rm : ResourceManager) : Prop :=
  ∀ fv ∈ rm.cached, fv.2 ≠ []

/-- Memory invariant: every registered node has `free_mem ≤ total_mem`. -/
def MemInv (rm : ResourceManager) : Prop :=
  ∀ e ∈ rm.info, e.2.free_mem ≤ e.2.total_mem

/-- The cached-VM count recorded for node `n` under function `f`
(0 when absent). -/
def countFor (cached : List (String × List (Nat × Nat))) (f : String) (n : Nat) : Nat :=
  ((((alookup cached f).getD []).find? (fun e => e.1 = n)).map Prod.snd).getD 0

/-- The number of idle workers recorded for node `n` (0 when absent). -/
def idleLen (rm : ResourceManager) (n : Nat) : Nat :=
  ((alookup rm.idle n).getD []).length

/-- C10's preconditions, spelled over the state: every node of a cache
entry is registered. -/
def CacheNodesRegistered (rm : ResourceManager) : Prop :=
  ∀ fv ∈ rm.cached, ∀ e ∈ fv.2, (alookup rm.info e.1).isSome

/-- C10's preconditions: every idle-pool key is registered. -/
def IdleKeysRegistered (rm : ResourceManager) : Prop :=
  ∀ e ∈ rm.idle, (alookup rm.info e.1).isSome

/-- C10's preconditions: every cache entry's count is at least 1. -/
def CacheCountsPos (rm : ResourceManager) : Prop :=
  ∀ fv ∈ rm.cached, ∀ e ∈ fv.2, 1 ≤ e.2

/-- The extra precondition the code actually needs: the node of every
stored idle worker's own address is registered (the fallback branch
dereferences `info[worker.addr.ip()]`, not the pool key). -/
def IdleWorkersRegistered (rm : ResourceManager) : Prop :=
  ∀ e ∈ rm.idle, ∀ w ∈ e.2, (alookup rm.info w.addr.ip).isSome

instance (rm : ResourceManager) : Decidable rm.CachedOk := by
  unfold CachedOk GoodCached; infer_instance

instance (rm : ResourceManager) : Decidable rm.CachedNonempty := by
  unfold CachedNonempty; infer_instance

instance (rm : ResourceManager) : Decidable rm.MemInv := by
  unfold MemInv; infer_instance

instance (rm : ResourceManager) : Decidable rm.CacheNodesRegistered := by
  unfold CacheNodesRegistered; infer_instance

instance (rm : ResourceManager) : Decidable rm.IdleKeysRegistered := by
  unfold IdleKeysRegistered; infer_instance

instance (rm : ResourceManager) : Decidable rm.CacheCountsPos := by
  unfold CacheCountsPos; infer_instance

instance (rm : ResourceManager) : Decidable rm.IdleWorkersRegistered := by
  unfold IdleWorkersRegistered; infer_instance

end ResourceManager

/-! ### Concrete states for the spec's literal scenarios -/

/-- Worker `wA1` of scenario 1: first idle worker of node A (ip 0). -/
def wA1 : Worker := ⟨⟨0, 1⟩, 1⟩

/-- Worker `wA2` of scenario 1: second idle worker of node A. -/
def wA2 : Worker := ⟨⟨0, 2⟩, 2⟩

/-- Worker `wB1` of scenario 1: the idle worker of node B (ip 1). -/
def wB1 : Worker := ⟨⟨1, 1⟩, 3⟩

/-- Scenario 1 of §8: nodes A (ip 0) and B (ip 1), both clean,
`cache = {"hello": [(A,2),(B,1)]}`, `idle = {A:[wA1,wA2], B:[wB1]}`. -/
def rm0 : ResourceManager :=
  { info := [(0, ⟨0, 100, 50, false⟩), (1, ⟨1, 100, 50, false⟩)],
    cached := [("hello", [(0, 2), (1, 1)])],
    idle := [(0, [wA1, wA2]), (1, [wB1])],
    wait_list := [] }

/-- A state with a clean cached entry on node 0 but idle workers only
on node 1 (used against C2). -/
def rmC2 : ResourceManager :=
  { info := [(0, ⟨0, 100, 50, false⟩), (1, ⟨1, 100, 50, false⟩)],
    cached := [("f", [(0, 1)])],
    idle := [(1, [wB1])],
    wait_list := [] }

/-- A state with a single cached VM and a single idle worker on node 0
(used against C3's pruning clause). -/
def rmC3 : ResourceManager :=
  { info := [(0, ⟨0, 100, 50, false⟩)],
    cached := [("f", [(0, 1)])],
    idle := [(0, [wA1])],
    wait_list := [] }

/-- A state satisfying C10's stated preconditions in which the idle
worker's own address IP (7) is nevertheless unregistered. -/
def rmC10 : ResourceManager :=
  { info := [(0, ⟨0, 100, 50, false⟩)],
    cached := [],
    idle := [(0, [⟨⟨7, 1⟩, 9⟩])],
    wait_list := [] }

/-- A state with no cached entries and one idle worker, used to
exercise the fallback branch. -/
def rmFallback : ResourceManager :=
  { info := [(1, ⟨1, 100, 50, false⟩)],
    cached := [],
    idle := [(1, [wB1])],
    wait_list := [] }

/-- A state whose cached entry for "f" exists but lies entirely on a
dirty node (node 0), with an idle worker on node 1: the clean scan
yields no node and the fallback fires despite the cached entry. -/
def rmDirtyFall : ResourceManager :=
  { info := [(0, ⟨0, 100, 50, true⟩), (1, ⟨1, 100, 50, false⟩)],
    cached := [("f", [(0, 2)])],
    idle := [(1, [wB1])],
    wait_list := [] }

/-- The number of occurrences of a message in a send trace. -/
def countMsg (m : Msg) : List Msg → Nat
  | [] => 0
  | x :: xs => (if x = m then 1 else 0) + countMsg m xs

/-- One iteration that acquires a VM, reaches `process_req`, and fails
there: `GetVm` succeeded, the VM was launched (already, or by a
successful `launch`), and `process_req` returned an error. -/
def procFails (a : AttemptEnv) : Bool :=
  match a.getVm with
  | .error _ => false
  | .ok vm =>
    (vm.launched ||
      (match a.launch with | .ok _ => true | .error _ => false)) &&
    (match a.procReq with | .error _ => true | .ok _ => false)

/-- The environment of scenario 5: `GetVm` yields a launched VM and
`process_req` fails with `VsockRead` on every attempt. -/
def envC6 : Nat → AttemptEnv :=
  fun _ => ⟨.ok ⟨true⟩, .ok (), .error .VsockRead⟩

/-! ### Association-list lemmas -/

section AssocLemmas

variable {α β : Type} [DecidableEq α]

theorem alookup_nil (k : α) : alookup ([] : List (α × β)) k = none := rfl

theorem alookup_cons (e : α × β) (l : List (α × β)) (k : α) :
    alookup (e :: l) k = if e.1 = k then some e.2 else alookup l k := by
  by_cases h : e.1 = k <;> simp [alookup, List.find?_cons, h]

theorem alookup_append_of_none {l : List (α × β)} {k : α}
    (h : alookup l k = none) (l' : List (α × β)) :
    alookup (l ++ l') k = alookup l' k := by
  induction l with
  | nil => rfl
  | cons e t ih =>
    rw [alookup_cons] at h
    by_cases he : e.1 = k
    · rw [if_pos he] at h
      exact absurd h (Option.some_ne_none _)
    · rw [if_neg he] at h
      rw [List.cons_append, alookup_cons, if_neg he]
      exact ih h

theorem aset_cons (e : α × β) (l : List (α × β)) (k : α) (v : β) :
    aset (e :: l) k v = (if e.1 = k then (k, v) else e) :: aset l k v := rfl

theorem alookup_aset_self {l : List (α × β)} {k : α}
    (h : (alookup l k).isSome) (v : β) : alookup (aset l k v) k = some v := by
  induction l with
  | nil => simp [alookup] at h
  | cons e t ih =>
    rw [aset_cons]
    by_cases he : e.1 = k
    · rw [if_pos he, alookup_cons, if_pos rfl]
    · rw [if_neg he, alookup_cons, if_neg he]
      rw [alookup_cons, if_neg he] at h
      exact ih h

theorem alookup_aset_of_ne {k k' : α} (h : k' ≠ k) (l : List (α × β)) (v : β) :
    alookup (aset l k v) k' = alookup l k' := by
  induction l with
  | nil => rfl
  | cons e t ih =>
    rw [aset_cons]
    by_cases he : e.1 = k
    · rw [if_pos he, alookup_cons, alookup_cons, if_neg (fun hk => h hk.symm),
        if_neg (fun hk => h (he ▸ hk).symm)]
      exact ih
    · rw [if_neg he, alookup_cons, alookup_cons]
      by_cases he' : e.1 = k'
      · rw [if_pos he', if_pos he']
      · rw [if_neg he', if_neg he']
        exact ih

theorem keys_aset (l : List (α × β)) (k : α) (v : β) :
    ResourceManager.keys (aset l k v) = ResourceManager.keys l := by
  induction l with
  | nil => rfl
  | cons e t ih =>
    rw [aset_cons]
    by_cases he : e.1 = k
    · simp [ResourceManager.keys, he, ResourceManager.keys] at ih ⊢
      exact ih
    · simp [ResourceManager.keys, he] at ih ⊢
      exact ih

theorem alookup_isSome_iff {l : List (α × β)} {k : α} :
    (alookup l k).isSome ↔ k ∈ ResourceManager.keys l := by
  induction l with
  | nil => simp [alookup, ResourceManager.keys]
  | cons e t ih =>
    rw [alookup_cons]
    by_cases he : e.1 = k
    · simp [he, ResourceManager.keys]
    · simp [he, ResourceManager.keys, ih]
      intro hk
      exact absurd hk.symm he

theorem mem_aset {l : List (α × β)} {k : α} {v : β} {e : α × β}
    (h : e ∈ aset l k v) : e ∈ l ∨ e = (k, v) := by
  unfold aset at h
  rcases List.mem_map.1 h with ⟨e', he', heq⟩
  by_cases hk : e'.1 = k
  · right; rw [if_pos hk] at heq; exact heq.symm
  · left; rw [if_neg hk] at heq; exact heq ▸ he'

end AssocLemmas

theorem keys_append {α β : Type} (l l' : List (α × β)) :
    ResourceManager.keys (l ++ l') =
      ResourceManager.keys l ++ ResourceManager.keys l' := by
  simp [ResourceManager.keys]

/-! ### Claim C1: the cache-hit placement scenario -/

/-- C1 is false as stated: on scenario 1's state, `find_idle "hello"`
returns `wA2`, the BACK of node A's idle list (`Vec::pop` is LIFO),
not `wA1`. -/
theorem c1_counterexample :
    (ResourceManager.find_idle rm0 "hello").map Prod.fst = some (some wA2) ∧
    wA2 ≠ wA1 := by
  exact ⟨by decide, by decide⟩

/-- C1 amended: on scenario 1's state, `find_idle "hello"` returns
`wA2` (the back of node A's idle list), and afterwards
`cache["hello"] = [(A,1),(B,1)]` and `idle[A] = [wA1]`. -/
theorem c1_cache_hit_scenario :
    ResourceManager.find_idle rm0 "hello" =
      some (some wA2,
        { info := [(0, ⟨0, 100, 50, false⟩), (1, ⟨1, 100, 50, false⟩)],
          cached := [("hello", [(0, 1), (1, 1)])],
          idle := [(0, [wA1]), (1, [wB1])],
          wait_list := [] }) := by
  decide

/-! ### Claim C2: `find_idle` returning `None` -/

/-- C2 is false as stated: in `rmC2` the idle pool is non-empty (node 1
has an idle worker) yet `find_idle "f"` returns `None`, because the
clean cached entry selects node 0, which has no idle workers. -/
theorem c2_counterexample :
    (ResourceManager.find_idle rmC2 "f").map Prod.fst = some none ∧
    rmC2.idle ≠ [] := by
  exact ⟨by decide, by decide⟩

/-- C2 amended: whenever the cached-clean scan yields no node — either
the function has no cached entry at all, or it has one whose nodes are
all dirty — `find_idle` returns `None` if the idle pool is empty, and
otherwise pops the LAST worker of the first idle list and sets that
worker's node's dirty flag to true.  (As stated the claim is false:
`find_idle` can also return `None` with a non-empty idle pool, see
`c2_counterexample`.) -/
theorem c2_fallback (rm : ResourceManager) (f : String)
    (cached' : List (String × List (Nat × Nat)))
    (hscan : (alookup rm.cached f = none ∧ cached' = rm.cached) ∨
      (∃ v v', alookup rm.cached f = some v ∧
        ResourceManager.scanClean rm.info v = some (none, v') ∧
        cached' = aset rm.cached f (v'.filter (fun e => e.2 ≠ 0)))) :
    (rm.idle = [] →
      ResourceManager.find_idle rm f = some (none, { rm with cached := cached' })) ∧
    (∀ (n₀ : Nat) (v₀ : List Worker) (rest : List (Nat × List Worker))
        (w : Worker) (ni : NodeInfo),
      rm.idle = (n₀, v₀) :: rest → v₀.getLast? = some w →
      alookup rm.info w.addr.ip = some ni →
      ResourceManager.find_idle rm f =
        some (some w,
          { rm with
            cached := cached',
            info := aset rm.info w.addr.ip { ni with dirty := true },
            idle := ((n₀, v₀.dropLast) :: rest).filter (fun e => ¬ e.2.isEmpty) })) := by
  rcases hscan with ⟨hc, rfl⟩ | ⟨v, v', hc, hsc, rfl⟩
  · constructor
    · intro hid
      simp [ResourceManager.find_idle, hc, hid]
      rw [← hid]
    · intro n₀ v₀ rest w ni hid hlast hinfo
      simp [ResourceManager.find_idle, hc, hid, vecPop, hlast, hinfo]
  · constructor
    · intro hid
      simp [ResourceManager.find_idle, hc, hsc, hid]
    · intro n₀ v₀ rest w ni hid hlast hinfo
      simp [ResourceManager.find_idle, hc, hsc, hid, vecPop, hlast, hinfo]

/-- Witness for C2's amended statement on a state whose cached entry
for the invoked function exists but lies entirely on a dirty node: the
scan yields no node and the fallback pops `wB1`, marking node 1
dirty. -/
theorem c2_fallback_witness :
    ResourceManager.find_idle rmDirtyFall "f" =
      some (some wB1,
        { info := [(0, ⟨0, 100, 50, true⟩), (1, ⟨1, 100, 50, true⟩)],
          cached := [("f", [(0, 2)])], idle := [], wait_list := [] }) := by
  exact (c2_fallback rmDirtyFall "f" [("f", [(0, 2)])]
      (Or.inr ⟨[(0, 2)], [(0, 2)], by decide, by decide, by decide⟩)).2
    1 [wB1] [] wB1 ⟨1, 100, 50, false⟩ rfl rfl rfl

/-! ### Claim C10: `find_idle` totality -/

theorem alookup_mem {α β : Type} [DecidableEq α] {l : List (α × β)} {k : α} {v : β}
    (h : alookup l k = some v) : (k, v) ∈ l := by
  unfold alookup at h
  rcases Option.map_eq_some'.1 h with ⟨e, he, hev⟩
  have h1 : e.1 = k := by simpa using List.find?_some he
  have h2 := List.mem_of_find?_eq_some he
  obtain ⟨a, b⟩ := e
  cases h1
  cases hev
  exact h2

/-- `scanClean` cannot panic when every scanned node is registered and
every count is at least 1. -/
theorem scanClean_isSome {info : List (Nat × NodeInfo)} :
    ∀ {v : List (Nat × Nat)},
      (∀ e ∈ v, (alookup info e.1).isSome ∧ 1 ≤ e.2) →
      (ResourceManager.scanClean info v).isSome := by
  intro v
  induction v with
  | nil => intro _; rfl
  | cons e rest ih =>
    intro h
    obtain ⟨hs, hk⟩ := h e (List.mem_cons_self _ _)
    rcases Option.isSome_iff_exists.1 hs with ⟨i, hi⟩
    obtain ⟨n, k⟩ := e
    simp only at hi hk
    simp only [ResourceManager.scanClean, hi]
    by_cases hd : i.dirty
    · simp only [hd, if_true, Option.isSome_map']
      exact ih (fun e he => h e (List.mem_cons_of_mem _ he))
    · have hz : ¬ (k = 0) := by omega
      simp [hd, hz]

/-- C10 is false as stated: `rmC10` satisfies all three stated
preconditions (cache nodes registered — vacuously, idle-pool key 0
registered, counts ≥ 1 — vacuously), yet `find_idle` panics
(`none` models the `unwrap` panic) because the fallback dereferences
the popped worker's own address IP 7, which is not registered. -/
theorem c10_counterexample :
    rmC10.CacheNodesRegistered ∧ rmC10.IdleKeysRegistered ∧
    rmC10.CacheCountsPos ∧
    ResourceManager.find_idle rmC10 "g" = none := by
  exact ⟨by decide, by decide, by decide, by decide⟩

/-- C10 amended: `find_idle` never panics when every cache-entry node
is registered, every cache count is at least 1, every idle-pool key is
registered, AND every stored idle worker's own address IP is registered.
(The last precondition is necessary and missing from the claim: the
fallback branch dereferences the popped worker's address, not the pool
key — see `c10_counterexample`.) -/
theorem c10_no_panic (rm : ResourceManager)
    (h1 : ResourceManager.CacheNodesRegistered rm)
    (h2 : ResourceManager.IdleKeysRegistered rm)
    (h3 : ResourceManager.CacheCountsPos rm)
    (h4 : ResourceManager.IdleWorkersRegistered rm) :
    ∀ f, (ResourceManager.find_idle rm f).isSome := by
  intro f
  cases hc : alookup rm.cached f with
  | none =>
    cases hid : rm.idle with
    | nil => simp [ResourceManager.find_idle, hc, hid]
    | cons p rest =>
      obtain ⟨n₀, v₀⟩ := p
      cases hlast : v₀.getLast? with
      | none => simp [ResourceManager.find_idle, hc, hid, vecPop, hlast]
      | some w =>
        have hw : w ∈ v₀ := List.mem_of_getLast?_eq_some hlast
        have hws := h4 (n₀, v₀) (by rw [hid]; exact List.mem_cons_self _ _) w hw
        rcases Option.isSome_iff_exists.1 hws with ⟨ni, hni⟩
        simp [ResourceManager.find_idle, hc, hid, vecPop, hlast, hni]
  | some v =>
    have hmem : (f, v) ∈ rm.cached := alookup_mem hc
    have hcond : ∀ e ∈ v, (alookup rm.info e.1).isSome ∧ 1 ≤ e.2 :=
      fun e he => ⟨h1 (f, v) hmem e he, h3 (f, v) hmem e he⟩
    rcases Option.isSome_iff_exists.1 (scanClean_isSome hcond) with ⟨⟨fst, v'⟩, hscan⟩
    cases fst with
    | some n => simp [ResourceManager.find_idle, hc, hscan]
    | none =>
      cases hid : rm.idle with
      | nil => simp [ResourceManager.find_idle, hc, hscan, hid]
      | cons p rest =>
        obtain ⟨n₀, v₀⟩ := p
        cases hlast : v₀.getLast? with
        | none => simp [ResourceManager.find_idle, hc, hscan, hid, vecPop, hlast]
        | some w =>
          have hw : w ∈ v₀ := List.mem_of_getLast?_eq_some hlast
          have hws := h4 (n₀, v₀) (by rw [hid]; exact List.mem_cons_self _ _) w hw
          rcases Option.isSome_iff_exists.1 hws with ⟨ni, hni⟩
          simp [ResourceManager.find_idle, hc, hscan, hid, vecPop, hlast, hni]

/-- Witness for C10's amended statement on scenario 1's state. -/
theorem c10_no_panic_witness : (ResourceManager.find_idle rm0 "hello").isSome :=
  c10_no_panic rm0 (by decide) (by decide) (by decide) (by decide) "hello"

/-! ### Effect characterization of `find_idle` (shared by C3, C8) -/

/-- A successful (non-panicking) `find_idle` either leaves `info`
unchanged or sets one registered node's dirty flag, and either leaves
`cached` unchanged or replaces the invoked function's list by its
scanned-and-pruned version. -/
theorem find_idle_effect (rm : ResourceManager) (f : String)
    (w : Option Worker) (rm' : ResourceManager)
    (h : ResourceManager.find_idle rm f = some (w, rm')) :
    (rm'.info = rm.info ∨ ∃ k ni, alookup rm.info k = some ni ∧
        rm'.info = aset rm.info k { ni with dirty := true }) ∧
    (rm'.cached = rm.cached ∨ ∃ v fst v', alookup rm.cached f = some v ∧
        ResourceManager.scanClean rm.info v = some (fst, v') ∧
        rm'.cached = aset rm.cached f (v'.filter (fun e => e.2 ≠ 0))) ∧
    rm'.wait_list = rm.wait_list := by
  cases hc : alookup rm.cached f with
  | none =>
    cases hid : rm.idle with
    | nil =>
      simp only [ResourceManager.find_idle, hc, hid] at h
      rw [Option.some.injEq, Prod.mk.injEq] at h
      obtain ⟨rfl, rfl⟩ := h
      exact ⟨Or.inl rfl, Or.inl rfl, rfl⟩
    | cons p rest =>
      obtain ⟨n₀, v₀⟩ := p
      cases hlast : v₀.getLast? with
      | none =>
        simp only [ResourceManager.find_idle, hc, hid, vecPop, hlast] at h
        rw [Option.some.injEq, Prod.mk.injEq] at h
        obtain ⟨rfl, rfl⟩ := h
        exact ⟨Or.inl rfl, Or.inl rfl, rfl⟩
      | some w0 =>
        cases hni : alookup rm.info w0.addr.ip with
        | none =>
          simp only [ResourceManager.find_idle, hc, hid, vecPop, hlast, hni] at h
          exact Option.noConfusion h
        | some ni =>
          simp only [ResourceManager.find_idle, hc, hid, vecPop, hlast, hni] at h
          rw [Option.some.injEq, Prod.mk.injEq] at h
          obtain ⟨rfl, rfl⟩ := h
          exact ⟨Or.inr ⟨w0.addr.ip, ni, hni, rfl⟩, Or.inl rfl, rfl⟩
  | some v =>
    cases hscan : ResourceManager.scanClean rm.info v with
    | none =>
      simp only [ResourceManager.find_idle, hc, hscan] at h
      exact Option.noConfusion h
    | some q =>
      obtain ⟨fst, v'⟩ := q
      cases fst with
      | some n =>
        simp only [ResourceManager.find_idle, hc, hscan] at h
        rw [Option.some.injEq, Prod.mk.injEq] at h
        obtain ⟨rfl, rfl⟩ := h
        exact ⟨Or.inl rfl, Or.inr ⟨v, some n, v', by simp [hc], hscan, rfl⟩, rfl⟩
      | none =>
        cases hid : rm.idle with
        | nil =>
          simp only [ResourceManager.find_idle, hc, hscan, hid] at h
          rw [Option.some.injEq, Prod.mk.injEq] at h
          obtain ⟨rfl, rfl⟩ := h
          exact ⟨Or.inl rfl, Or.inr ⟨v, none, v', by simp [hc], hscan, rfl⟩, rfl⟩
        | cons p rest =>
          obtain ⟨n₀, v₀⟩ := p
          cases hlast : v₀.getLast? with
          | none =>
            simp only [ResourceManager.find_idle, hc, hscan, hid, vecPop, hlast] at h
            rw [Option.some.injEq, Prod.mk.injEq] at h
            obtain ⟨rfl, rfl⟩ := h
            exact ⟨Or.inl rfl, Or.inr ⟨v, none, v', by simp [hc], hscan, rfl⟩, rfl⟩
          | some w0 =>
            cases hni : alookup rm.info w0.addr.ip with
            | none =>
              simp only [ResourceManager.find_idle, hc, hscan, hid, vecPop, hlast,
                hni] at h
              exact Option.noConfusion h
            | some ni =>
              simp only [ResourceManager.find_idle, hc, hscan, hid, vecPop, hlast,
                hni] at h
              rw [Option.some.injEq, Prod.mk.injEq] at h
              obtain ⟨rfl, rfl⟩ := h
              exact ⟨Or.inr ⟨w0.addr.ip, ni, hni, rfl⟩,
                Or.inr ⟨v, none, v', by simp [hc], hscan, rfl⟩, rfl⟩

/-! ### Claim C8: the memory invariant -/

/-- C8 is false as stated: `update` copies the incoming memory counters
unchecked, so a `ResourceInfo` with `free_mem > total_mem` (here 1 > 0)
installs a node that violates `free_mem ≤ total_mem`. -/
theorem c8_counterexample :
    ResourceManager.update ResourceManager.new 0 ⟨[], 0, 1⟩ =
      some { info := [(0, ⟨0, 0, 1, false⟩)], cached := [], idle := [],
             wait_list := [] } ∧
    ¬ ResourceManager.MemInv
        { info := [(0, ⟨0, 0, 1, false⟩)], cached := [], idle := [],
          wait_list := [] } := by
  exact ⟨by decide, by decide⟩

/-- `try_add_node` preserves the memory invariant (the fresh node has
`free_mem = total_mem = 0`). -/
theorem try_add_node_meminv {rm : ResourceManager} (h : rm.MemInv) (n : Nat) :
    (rm.try_add_node n).2.MemInv := by
  unfold ResourceManager.try_add_node
  by_cases hn : (alookup rm.info n).isSome
  · simpa [hn] using h
  · simp only [hn, Bool.not_false, if_false]
    intro e he
    rcases List.mem_append.1 he with h1 | h1
    · exact h e h1
    · simp only [List.mem_singleton] at h1
      subst h1
      exact Nat.le_refl 0

/-- C8 amended: `add_idle`, `find_idle`, `remove` and `reset` preserve
`free_mem ≤ total_mem` unconditionally, and `update` preserves it
whenever the incoming `ResourceInfo` itself satisfies
`free_mem ≤ total_mem`.  (Unconditional preservation by `update` is
false, see `c8_counterexample`.) -/
theorem c8_mem_preservation (rm : ResourceManager) (h : rm.MemInv) :
    (∀ addr sender, (rm.add_idle addr sender).MemInv) ∧
    (∀ f w rm', rm.find_idle f = some (w, rm') → rm'.MemInv) ∧
    (∀ a ri rm', ri.free_mem ≤ ri.total_mem →
      rm.update a ri = some rm' → rm'.MemInv) ∧
    (∀ a, (rm.remove a).MemInv) ∧
    (rm.reset).2.MemInv := by
  refine ⟨?_, ?_, ?_, ?_, ?_⟩
  · intro addr sender
    have htry := try_add_node_meminv h addr.ip
    unfold ResourceManager.add_idle
    cases halo : alookup (rm.try_add_node addr.ip).2.idle addr.ip <;>
      simp only [halo] <;> exact htry
  · intro f w rm' hf
    rcases (find_idle_effect rm f w rm' hf).1 with heq | ⟨k, ni, hni, heq⟩
    · intro e he
      rw [heq] at he
      exact h e he
    · intro e he
      rw [heq] at he
      rcases mem_aset he with h1 | h1
      · exact h e h1
      · subst h1
        exact h (k, ni) (alookup_mem hni)
  · intro a ri rm' hri hupd
    unfold ResourceManager.update ResourceManager.try_add_node at hupd
    by_cases hn : (alookup rm.info a).isSome
    · rcases Option.isSome_iff_exists.1 hn with ⟨ni0, hni0⟩
      have h1 : alookup (aset rm.info a { ni0 with dirty := false }) a =
          some { ni0 with dirty := false } := alookup_aset_self hn _
      simp only [hni0, Option.isSome_some, Bool.not_true, Bool.false_eq_true,
        if_false, if_true, h1, Option.some.injEq] at hupd
      subst hupd
      intro e he
      rcases mem_aset he with h1' | h1'
      · rcases mem_aset h1' with h2 | h2
        · exact h e h2
        · subst h2
          exact h (a, ni0) (alookup_mem hni0)
      · subst h1'
        exact hri
    · have hnone : alookup rm.info a = none := Option.not_isSome_iff_eq_none.1 hn
      have h1 : alookup (rm.info ++ [(a, NodeInfo.new a)]) a =
          some (NodeInfo.new a) := by
        rw [alookup_append_of_none hnone, alookup_cons, if_pos rfl]
      simp only [hnone, Option.isSome_none, Bool.not_false, Bool.false_eq_true,
        if_false, if_true, h1, Option.some.injEq] at hupd
      subst hupd
      intro e he
      rcases mem_aset he with h1' | h1'
      · rcases List.mem_append.1 h1' with h2 | h2
        · exact h e h2
        · simp only [List.mem_singleton] at h2
          subst h2
          exact Nat.le_refl 0
      · subst h1'
        exact hri
  · intro a e he
    have : e ∈ rm.info := List.mem_of_mem_filter he
    exact h e this
  · exact h

/-- Witness for C8's amended statement: the invariant survives an
`update` with consistent counters on scenario 1's state. -/
theorem c8_mem_preservation_witness :
    ResourceManager.MemInv
      ((ResourceManager.update rm0 3 ⟨[("g", 2)], 64, 32⟩).getD rm0) := by
  have hup : ResourceManager.update rm0 3 ⟨[("g", 2)], 64, 32⟩ =
      some ((ResourceManager.update rm0 3 ⟨[("g", 2)], 64, 32⟩).getD rm0) := by decide
  exact (c8_mem_preservation rm0 (by decide)).2.2.1 3 ⟨[("g", 2)], 64, 32⟩ _
    (by decide) hup

/-! ### Claim C3: cache-index invariants -/

/-- `swap_remove` at a successor position on a list of length ≥ 2
commutes with the head. -/
theorem swapRemove_cons_succ (x y : Nat × Nat) (ys : List (Nat × Nat)) (pos : Nat) :
    ResourceManager.swapRemove (x :: y :: ys) (pos + 1) =
      x :: ResourceManager.swapRemove (y :: ys) pos := by
  unfold ResourceManager.swapRemove
  rw [List.getLast?_cons_cons]
  cases hg : (y :: ys).getLast? with
  | none => simp at hg
  | some g =>
    simp only [List.set_cons_succ]
    rw [List.dropLast_cons_of_ne_nil]
    cases pos <;> simp

/-- Under per-function key uniqueness, `removeNodeEntry` returns a
subset of the original entries none of which mentions the removed
node, and keeps the keys duplicate-free. -/
theorem removeNodeEntry_spec (addr : Nat) :
    ∀ (v : List (Nat × Nat)), (ResourceManager.keys v).Nodup →
      (∀ e ∈ ResourceManager.removeNodeEntry v addr, e ∈ v ∧ ¬ e.1 = addr) ∧
      (ResourceManager.keys (ResourceManager.removeNodeEntry v addr)).Nodup := by
  intro v
  induction v with
  | nil =>
    intro _
    exact ⟨fun e he => absurd he (List.not_mem_nil e), List.Pairwise.nil⟩
  | cons x xs ih =>
    intro hnd
    have hx1 : x.1 ∉ ResourceManager.keys xs ∧ (ResourceManager.keys xs).Nodup := by
      simpa [ResourceManager.keys] using hnd
    by_cases hx : x.1 = addr
    · have hfi : (x :: xs).findIdx? (fun e => e.1 = addr) = some 0 := by
        simp [List.findIdx?_cons, hx]
      cases xs with
      | nil =>
        have : ResourceManager.removeNodeEntry [x] addr = [] := by
          unfold ResourceManager.removeNodeEntry
          rw [hfi]
          rfl
        rw [this]
        exact ⟨fun e he => absurd he (List.not_mem_nil e), List.Pairwise.nil⟩
      | cons y ys =>
        have hne : (y :: ys) ≠ [] := List.cons_ne_nil y ys
        have hg : (y :: ys).getLast? = some ((y :: ys).getLast hne) :=
          List.getLast?_eq_getLast _ hne
        have hrw : ResourceManager.removeNodeEntry (x :: y :: ys) addr =
            (y :: ys).getLast hne :: (y :: ys).dropLast := by
          unfold ResourceManager.removeNodeEntry ResourceManager.swapRemove
          rw [hfi, List.getLast?_cons_cons, hg]
          show ((x :: y :: ys).set 0 _).dropLast = _
          rw [List.set_cons_zero, List.dropLast_cons_of_ne_nil hne]
        rw [hrw]
        have hmem : ∀ e, e ∈ (y :: ys).getLast hne :: (y :: ys).dropLast →
            e ∈ y :: ys := by
          intro e he
          rcases List.mem_cons.1 he with rfl | he'
          · exact List.getLast_mem hne
          · exact (List.dropLast_sublist (y :: ys)).subset he'
        constructor
        · intro e he
          have hmemv := hmem e he
          refine ⟨List.mem_cons_of_mem x hmemv, fun hea => ?_⟩
          have : e.1 ∈ ResourceManager.keys (y :: ys) :=
            List.mem_map_of_mem Prod.fst hmemv
          rw [hea, ← hx] at this
          exact hx1.1 this
        · have hperm : ((y :: ys).getLast hne :: (y :: ys).dropLast).Perm (y :: ys) := by
            have hconc := List.dropLast_concat_getLast hne
            have h1 : ((y :: ys).getLast hne :: (y :: ys).dropLast).Perm
                ((y :: ys).dropLast ++ [(y :: ys).getLast hne]) :=
              (List.perm_append_singleton _ _).symm
            rw [hconc] at h1
            exact h1
          have hpk := hperm.map Prod.fst
          exact (hpk.nodup_iff).2 hx1.2
    · have hfi : (x :: xs).findIdx? (fun e => e.1 = addr) =
          (xs.findIdx? (fun e => e.1 = addr)).map (· + 1) := by
        simp [List.findIdx?_cons, hx]
      cases hf : xs.findIdx? (fun e => e.1 = addr) with
      | none =>
        have hrw : ResourceManager.removeNodeEntry (x :: xs) addr = x :: xs := by
          unfold ResourceManager.removeNodeEntry
          rw [hfi, hf]
          rfl
        rw [hrw]
        have hall : ∀ e ∈ xs, ¬ e.1 = addr := by
          intro e he
          have := List.findIdx?_eq_none_iff.1 hf e he
          simpa using this
        refine ⟨fun e he => ?_, hnd⟩
        rcases List.mem_cons.1 he with rfl | he'
        · exact ⟨List.mem_cons_self _ _, hx⟩
        · exact ⟨he, hall e he'⟩
      | some pos =>
        cases xs with
        | nil => simp [List.findIdx?_nil] at hf
        | cons y ys =>
          have hrw : ResourceManager.removeNodeEntry (x :: y :: ys) addr =
              x :: ResourceManager.removeNodeEntry (y :: ys) addr := by
            unfold ResourceManager.removeNodeEntry
            rw [hfi, hf]
            show ResourceManager.swapRemove (x :: y :: ys) (pos + 1) = _
            rw [swapRemove_cons_succ]
          rw [hrw]
          obtain ⟨ihA, ihB⟩ := ih hx1.2
          constructor
          · intro e he
            rcases List.mem_cons.1 he with rfl | he'
            · exact ⟨List.mem_cons_self _ _, hx⟩
            · obtain ⟨h1, h2⟩ := ihA e he'
              exact ⟨List.mem_cons_of_mem x h1, h2⟩
          · show (ResourceManager.keys
              (x :: ResourceManager.removeNodeEntry (y :: ys) addr)).Nodup
            have hsub : x.1 ∉ ResourceManager.keys
                (ResourceManager.removeNodeEntry (y :: ys) addr) := by
              intro hmem
              rcases List.mem_map.1 hmem with ⟨e, he, hee⟩
              have := (ihA e he).1
              have : e.1 ∈ ResourceManager.keys (y :: ys) :=
                List.mem_map_of_mem Prod.fst this
              rw [hee] at this
              exact hx1.1 this
            have hkeq : ResourceManager.keys
                (x :: ResourceManager.removeNodeEntry (y :: ys) addr) =
                x.1 :: ResourceManager.keys
                  (ResourceManager.removeNodeEntry (y :: ys) addr) := rfl
            rw [hkeq, List.nodup_cons]
            exact ⟨hsub, ihB⟩

theorem alookup_aremove_of_ne {α β : Type} [DecidableEq α] {k addr : α}
    (h : ¬ k = addr) (l : List (α × β)) :
    alookup (aremove l addr) k = alookup l k := by
  induction l with
  | nil => rfl
  | cons e t ih =>
    show alookup (List.filter _ (e :: t)) k = _
    rw [List.filter_cons]
    by_cases he : e.1 = addr
    · have hd : (decide ¬ e.1 = addr) = false := by simp [he]
      rw [hd, if_neg (by simp), alookup_cons,
        if_neg (by intro hk; exact h (hk ▸ he))]
      exact ih
    · have hd : (decide ¬ e.1 = addr) = true := by simp [he]
      rw [hd, if_pos rfl, alookup_cons, alookup_cons]
      by_cases hek : e.1 = k
      · rw [if_pos hek, if_pos hek]
      · rw [if_neg hek, if_neg hek]
        exact ih

theorem alookup_isSome_append {α β : Type} [DecidableEq α]
    {l : List (α × β)} {k : α} (h : (alookup l k).isSome) (l' : List (α × β)) :
    (alookup (l ++ l') k).isSome := by
  rw [alookup_isSome_iff] at h ⊢
  rw [keys_append]
  exact List.mem_append_left _ h

theorem setFirstNode_mem {node num : Nat} :
    ∀ {nodes : List (Nat × Nat)} {e : Nat × Nat},
      e ∈ ResourceManager.setFirstNode nodes node num → e ∈ nodes ∨ e = (node, num) := by
  intro nodes
  induction nodes with
  | nil => intro e he; exact absurd he (List.not_mem_nil e)
  | cons x xs ih =>
    intro e he
    unfold ResourceManager.setFirstNode at he
    by_cases hx : x.1 = node
    · rw [if_pos hx] at he
      rcases List.mem_cons.1 he with rfl | he'
      · exact Or.inr rfl
      · exact Or.inl (List.mem_cons_of_mem x he')
    · rw [if_neg hx] at he
      rcases List.mem_cons.1 he with rfl | he'
      · exact Or.inl (List.mem_cons_self _ _)
      · rcases ih he' with h1 | h1
        · exact Or.inl (List.mem_cons_of_mem x h1)
        · exact Or.inr h1

theorem setFirstNode_keys {node num : Nat} :
    ∀ (nodes : List (Nat × Nat)),
      ResourceManager.keys (ResourceManager.setFirstNode nodes node num) =
        ResourceManager.keys nodes := by
  intro nodes
  induction nodes with
  | nil => rfl
  | cons x xs ih =>
    show ResourceManager.keys (if x.1 = node then (node, num) :: xs
      else x :: ResourceManager.setFirstNode xs node num) = _
    by_cases hx : x.1 = node
    · rw [if_pos hx]
      show node :: ResourceManager.keys xs = x.1 :: ResourceManager.keys xs
      rw [hx]
    · rw [if_neg hx]
      show x.1 :: ResourceManager.keys (ResourceManager.setFirstNode xs node num) =
        x.1 :: ResourceManager.keys xs
      rw [ih]

/-- `scanClean` preserves the sequence of node keys. -/
theorem scanClean_keys {info : List (Nat × NodeInfo)} :
    ∀ {v : List (Nat × Nat)} {fst : Option Nat} {v' : List (Nat × Nat)},
      ResourceManager.scanClean info v = some (fst, v') →
      ResourceManager.keys v' = ResourceManager.keys v := by
  intro v
  induction v with
  | nil =>
    intro fst v' h
    simp only [ResourceManager.scanClean, Option.some.injEq, Prod.mk.injEq] at h
    rw [← h.2]
  | cons e rest ih =>
    intro fst v' h
    obtain ⟨n, k⟩ := e
    unfold ResourceManager.scanClean at h
    cases hl : alookup info n with
    | none => rw [hl] at h; exact Option.noConfusion h
    | some i =>
      rw [hl] at h
      have h' : (if i.dirty then
          (ResourceManager.scanClean info rest).map (fun r => (r.1, (n, k) :: r.2))
        else if k = 0 then none
        else some (some n, (n, k - 1) :: rest)) = some (fst, v') := h
      clear h
      rename' h' => h
      by_cases hd : i.dirty
      · rw [if_pos hd] at h
        cases hrec : ResourceManager.scanClean info rest with
        | none => rw [hrec] at h; exact Option.noConfusion h
        | some q =>
          obtain ⟨r1, r2⟩ := q
          rw [hrec] at h
          simp only [Option.map_some', Option.some.injEq, Prod.mk.injEq] at h
          rw [← h.2]
          show n :: ResourceManager.keys r2 = n :: ResourceManager.keys rest
          rw [ih hrec]
      · rw [if_neg hd] at h
        by_cases hk : k = 0
        · rw [if_pos hk] at h; exact Option.noConfusion h
        · rw [if_neg hk] at h
          simp only [Option.some.injEq, Prod.mk.injEq] at h
          rw [← h.2]
          rfl

theorem GoodCached_mono {P Q : Nat → Prop} (hPQ : ∀ n, P n → Q n)
    {c : List (String × List (Nat × Nat))}
    (h : ResourceManager.GoodCached P c) : ResourceManager.GoodCached Q c := by
  intro fv hfv
  obtain ⟨h1, h2⟩ := h fv hfv
  exact ⟨fun e he => ⟨(h1 e he).1, hPQ e.1 (h1 e he).2⟩, h2⟩

/-- One `applyStat` step keeps the cache good, enlarging the allowed
nodes by the updating node itself. -/
theorem applyStat_good {P : Nat → Prop} {node : Nat} (hPnode : P node)
    {c : List (String × List (Nat × Nat))} (h : ResourceManager.GoodCached P c)
    (f : String) (num : Nat) :
    ResourceManager.GoodCached P (ResourceManager.applyStat node c f num) := by
  intro fv hfv
  unfold ResourceManager.applyStat at hfv
  cases hc : alookup c f with
  | some nodes =>
    rw [hc] at hfv
    rcases mem_aset hfv with h1 | h1
    · exact h fv h1
    · subst h1
      obtain ⟨hold, holdnd⟩ := h (f, nodes) (alookup_mem hc)
      constructor
      · intro e he
        have he1 := List.mem_of_mem_filter he
        have he2 : 0 < e.2 := by
          have := List.of_mem_filter he
          simpa using this
        refine ⟨he2, ?_⟩
        by_cases hfind : (nodes.find? (fun e => e.1 = node)).isSome
        · rw [if_pos hfind] at he1
          rcases setFirstNode_mem he1 with h2 | h2
          · exact (hold e h2).2
          · rw [h2]; exact hPnode
        · rw [if_neg hfind] at he1
          rcases List.mem_append.1 he1 with h2 | h2
          · exact (hold e h2).2
          · simp only [List.mem_singleton] at h2
            rw [h2]; exact hPnode
      · have hsub : (ResourceManager.keys
            (List.filter (fun e => decide (e.2 > 0))
              (if (nodes.find? (fun e => e.1 = node)).isSome
               then ResourceManager.setFirstNode nodes node num
               else nodes ++ [(node, num)]))).Sublist
            (ResourceManager.keys
              (if (nodes.find? (fun e => e.1 = node)).isSome
               then ResourceManager.setFirstNode nodes node num
               else nodes ++ [(node, num)])) :=
          (List.filter_sublist _).map Prod.fst
        refine hsub.nodup ?_
        by_cases hfind : (nodes.find? (fun e => e.1 = node)).isSome
        · rw [if_pos hfind, setFirstNode_keys]
          exact holdnd
        · rw [if_neg hfind, keys_append]
          have hnotin : node ∉ ResourceManager.keys nodes := by
            intro hmem
            rcases List.mem_map.1 hmem with ⟨e, he, hee⟩
            have : nodes.find? (fun e => decide (e.1 = node)) ≠ none := by
              intro hfn
              have := List.find?_eq_none.1 hfn e he
              simp [hee] at this
            rcases Option.ne_none_iff_exists.1 this with ⟨w, hw⟩
            rw [← hw] at hfind
            simp at hfind
          have hperm : (ResourceManager.keys nodes ++ [node]).Perm
              (node :: ResourceManager.keys nodes) :=
            List.perm_append_singleton _ _
          refine hperm.nodup_iff.2 ?_
          rw [List.nodup_cons]
          exact ⟨hnotin, holdnd⟩
  | none =>
    rw [hc] at hfv
    by_cases hnum : num > 0
    · rw [if_pos hnum] at hfv
      rcases List.mem_append.1 hfv with h1 | h1
      · exact h fv h1
      · simp only [List.mem_singleton] at h1
        subst h1
        refine ⟨fun e he => ?_, ?_⟩
        · simp only [List.mem_singleton] at he
          subst he
          exact ⟨hnum, hPnode⟩
        · simp [ResourceManager.keys]
    · rw [if_neg hnum] at hfv
      exact h fv hfv

/-- The whole stats fold of `update` keeps the cache good. -/
theorem foldl_applyStat_good {P : Nat → Prop} {node : Nat} (hPnode : P node) :
    ∀ (stats : List (String × Nat)) {c : List (String × List (Nat × Nat))},
      ResourceManager.GoodCached P c →
      ResourceManager.GoodCached P
        (stats.foldl (fun c fs => ResourceManager.applyStat node c fs.1 fs.2) c) := by
  intro stats
  induction stats with
  | nil => intro c h; exact h
  | cons fs rest ih =>
    intro c h
    exact ih (applyStat_good hPnode h fs.1 fs.2)

/-- Frame facts about `try_add_node`: only `info` changes, by at most
appending the fresh node. -/
theorem try_add_node_frame (rm : ResourceManager) (n : Nat) :
    (rm.try_add_node n).2.cached = rm.cached ∧
    (rm.try_add_node n).2.idle = rm.idle ∧
    (rm.try_add_node n).2.wait_list = rm.wait_list ∧
    ((rm.try_add_node n).2.info = rm.info ∨
      (rm.try_add_node n).2.info = rm.info ++ [(n, NodeInfo.new n)]) := by
  unfold ResourceManager.try_add_node
  by_cases hn : (alookup rm.info n).isSome
  · simp [hn]
  · simp [hn]

/-- Frame facts about `add_idle`: `cached` is untouched and `info` is
whatever `try_add_node` produced. -/
theorem add_idle_frame (rm : ResourceManager) (addr : SockAddr) (sender : Nat) :
    (rm.add_idle addr sender).cached = rm.cached ∧
    (rm.add_idle addr sender).info = (rm.try_add_node addr.ip).2.info := by
  unfold ResourceManager.add_idle
  cases halo : alookup (rm.try_add_node addr.ip).2.idle addr.ip <;>
    simp only [halo] <;>
    exact ⟨(try_add_node_frame rm addr.ip).1, trivial⟩

/-- C3 is false as stated: `rmC3` satisfies all the claimed invariants
(counts positive, nodes registered, no duplicates, no empty entry
list), yet `find_idle` leaves `cached["f"] = []` — the function key is
NOT removed from the cache index when its entry list empties. -/
theorem c3_counterexample :
    rmC3.CachedOk ∧ rmC3.CachedNonempty ∧
    (ResourceManager.find_idle rmC3 "f").map
        (fun p => alookup p.2.cached "f") = some (some []) := by
  exact ⟨by decide, by decide, by decide⟩

/-- C3 amended: every operation preserves the invariant "every cache
entry has a positive count and a registered node, with no duplicate
node per function" — but not the claimed pruning of empty functions
from the index (see `c3_counterexample`). -/
theorem c3_cache_invariants (rm : ResourceManager) (h : rm.CachedOk) :
    (∀ addr sender, (rm.add_idle addr sender).CachedOk) ∧
    (∀ f w rm', rm.find_idle f = some (w, rm') → rm'.CachedOk) ∧
    (∀ a ri rm', rm.update a ri = some rm' → rm'.CachedOk) ∧
    (∀ a, (rm.remove a).CachedOk) ∧
    (rm.reset).2.CachedOk := by
  refine ⟨?_, ?_, ?_, ?_, ?_⟩
  · intro addr sender
    obtain ⟨hcc, hii⟩ := add_idle_frame rm addr sender
    unfold ResourceManager.CachedOk at h ⊢
    rw [hcc, hii]
    rcases (try_add_node_frame rm addr.ip).2.2.2 with h2 | h2
    · rw [h2]; exact h
    · rw [h2]
      exact GoodCached_mono (fun n hn => alookup_isSome_append hn _) h
  · intro f w rm' hf
    obtain ⟨hinfo, hcached, _⟩ := find_idle_effect rm f w rm' hf
    have hkeys : ∀ n, (alookup rm.info n).isSome → (alookup rm'.info n).isSome := by
      rcases hinfo with heq | ⟨k, ni, hni, heq⟩
      · intro n hn; rw [heq]; exact hn
      · intro n hn
        rw [heq, alookup_isSome_iff, keys_aset, ← alookup_isSome_iff]
        exact hn
    unfold ResourceManager.CachedOk at h ⊢
    rcases hcached with heqc | ⟨v, fst, v', hcl, hscan, heqc⟩
    · rw [heqc]; exact GoodCached_mono hkeys h
    · rw [heqc]
      intro fv hfv
      rcases mem_aset hfv with h1 | h1
      · obtain ⟨ha, hb⟩ := h fv h1
        exact ⟨fun e he => ⟨(ha e he).1, hkeys e.1 (ha e he).2⟩, hb⟩
      · subst h1
        obtain ⟨ha, hb⟩ := h (f, v) (alookup_mem hcl)
        constructor
        · intro e he
          have he1 := List.mem_of_mem_filter he
          have hepos : 0 < e.2 := by
            have := List.of_mem_filter he
            simp at this
            omega
          refine ⟨hepos, ?_⟩
          have hk : e.1 ∈ ResourceManager.keys v := by
            rw [← scanClean_keys hscan]
            exact List.mem_map_of_mem Prod.fst he1
          rcases List.mem_map.1 hk with ⟨e0, he0, he0e⟩
          have hr := (ha e0 he0).2
          rw [he0e] at hr
          exact hkeys e.1 hr
        · have hnd : (ResourceManager.keys (v'.filter (fun e => e.2 ≠ 0))).Sublist
              (ResourceManager.keys v') := (List.filter_sublist _).map Prod.fst
          refine hnd.nodup ?_
          rw [scanClean_keys hscan]
          exact hb
  · intro a ri rm' hupd
    unfold ResourceManager.update ResourceManager.try_add_node at hupd
    unfold ResourceManager.CachedOk at h ⊢
    have hgood : ResourceManager.GoodCached
        (fun n => (alookup rm.info n).isSome ∨ n = a) rm.cached :=
      GoodCached_mono (fun n hn => Or.inl hn) h
    have hfold := foldl_applyStat_good (Or.inr rfl) ri.stats hgood
    by_cases hn : (alookup rm.info a).isSome
    · rcases Option.isSome_iff_exists.1 hn with ⟨ni0, hni0⟩
      have h1 : alookup (aset rm.info a { ni0 with dirty := false }) a =
          some { ni0 with dirty := false } := alookup_aset_self hn _
      simp only [hni0, Option.isSome_some, Bool.not_true, Bool.false_eq_true,
        if_false, if_true, h1, Option.some.injEq] at hupd
      subst hupd
      refine GoodCached_mono ?_ hfold
      intro n hcase
      rcases hcase with hc | rfl
      · rw [alookup_isSome_iff, keys_aset, keys_aset, ← alookup_isSome_iff]
        exact hc
      · rw [alookup_isSome_iff, keys_aset, keys_aset, ← alookup_isSome_iff]
        exact hn
    · have hnone : alookup rm.info a = none := Option.not_isSome_iff_eq_none.1 hn
      have h1 : alookup (rm.info ++ [(a, NodeInfo.new a)]) a =
          some (NodeInfo.new a) := by
        rw [alookup_append_of_none hnone, alookup_cons, if_pos rfl]
      simp only [hnone, Option.isSome_none, Bool.not_false, Bool.false_eq_true,
        if_false, if_true, h1, Option.some.injEq] at hupd
      subst hupd
      refine GoodCached_mono ?_ hfold
      intro n hcase
      rw [alookup_isSome_iff, keys_aset, keys_append]
      rcases hcase with hc | rfl
      · exact List.mem_append_left _ (alookup_isSome_iff.1 hc)
      · refine List.mem_append_right _ ?_
        show n ∈ ResourceManager.keys [(n, NodeInfo.new n)]
        exact List.mem_singleton_self n
  · intro a
    unfold ResourceManager.CachedOk at h ⊢
    have hcc : (rm.remove a).cached =
        rm.cached.map (fun e => (e.1, ResourceManager.removeNodeEntry e.2 a)) := rfl
    rw [hcc]
    intro fv hfv
    rcases List.mem_map.1 hfv with ⟨fv0, hfv0, rfl⟩
    obtain ⟨ha, hb⟩ := h fv0 hfv0
    obtain ⟨hspec, hnd⟩ := removeNodeEntry_spec a fv0.2 hb
    constructor
    · intro e he
      obtain ⟨hmem, hne⟩ := hspec e he
      refine ⟨(ha e hmem).1, ?_⟩
      show (alookup (aremove rm.info a) e.1).isSome
      rw [alookup_aremove_of_ne hne]
      exact (ha e hmem).2
    · exact hnd
  · exact h

/-- Witness for C3's amended statement: scenario 4's `UpdateResource`
from node B preserves the cache-index invariant. -/
theorem c3_cache_invariants_witness :
    ((ResourceManager.update rm0 1 ⟨[("hello", 0), ("world", 3)], 1024, 500⟩).getD
        rm0).CachedOk := by
  have hupd : ResourceManager.update rm0 1 ⟨[("hello", 0), ("world", 3)], 1024, 500⟩ =
      some ((ResourceManager.update rm0 1
        ⟨[("hello", 0), ("world", 3)], 1024, 500⟩).getD rm0) := by decide
  exact (c3_cache_invariants rm0 (by decide)).2.2.1 1
    ⟨[("hello", 0), ("world", 3)], 1024, 500⟩ _ hupd

/-! ### Claim C4: cached count versus idle count -/

theorem alookup_eq_none {α β : Type} [DecidableEq α] {l : List (α × β)} {k : α}
    (h : k ∉ ResourceManager.keys l) : alookup l k = none := by
  cases hv : alookup l k with
  | none => rfl
  | some v =>
    exact absurd (alookup_isSome_iff.1 (by rw [hv]; rfl)) h

/-- Looking up through the empty-list pruning filter, under key
uniqueness. -/
theorem alookup_filter_isEmpty {l : List (Nat × List Worker)} {k : Nat}
    {v : List Worker} (hnd : (ResourceManager.keys l).Nodup)
    (hv : alookup l k = some v) :
    alookup (l.filter (fun e => ¬ e.2.isEmpty)) k =
      if v.isEmpty then none else some v := by
  induction l with
  | nil => exact Option.noConfusion hv
  | cons e t ih =>
    have hnd1 : e.1 ∉ ResourceManager.keys t ∧ (ResourceManager.keys t).Nodup := by
      simpa [ResourceManager.keys] using hnd
    rw [alookup_cons] at hv
    rw [List.filter_cons]
    by_cases hek : e.1 = k
    · rw [if_pos hek] at hv
      obtain rfl := Option.some.inj hv
      by_cases hemp : e.2.isEmpty
      · have hd : (decide ¬ e.2.isEmpty) = false := by simp [hemp]
        rw [hd, if_neg (by simp), if_pos hemp]
        refine alookup_eq_none ?_
        intro hmem
        rcases List.mem_map.1 hmem with ⟨e', he', hee⟩
        have : e' ∈ t := List.mem_of_mem_filter he'
        have : e'.1 ∈ ResourceManager.keys t := List.mem_map_of_mem Prod.fst this
        rw [hee, ← hek] at this
        exact hnd1.1 this
      · have hd : (decide ¬ e.2.isEmpty) = true := by simp [hemp]
        rw [hd, if_pos rfl, if_neg hemp, alookup_cons, if_pos hek]
    · rw [if_neg hek] at hv
      by_cases hemp : e.2.isEmpty
      · have hd : (decide ¬ e.2.isEmpty) = false := by simp [hemp]
        rw [hd, if_neg (by simp)]
        exact ih hnd1.2 hv
      · have hd : (decide ¬ e.2.isEmpty) = true := by simp [hemp]
        rw [hd, if_pos rfl, alookup_cons, if_neg hek]
        exact ih hnd1.2 hv

/-- When `scanClean` selects node `n` from a duplicate-free entry list,
the original list holds `(n, k)` with `k ≠ 0` and the pruned updated
list holds `(n, k-1)` unless it was pruned to nothing. -/
theorem scanClean_found {info : List (Nat × NodeInfo)} :
    ∀ {v : List (Nat × Nat)} {n : Nat} {v' : List (Nat × Nat)},
      ResourceManager.scanClean info v = some (some n, v') →
      (ResourceManager.keys v).Nodup →
      ∃ k, ¬ k = 0 ∧
        v.find? (fun e => e.1 = n) = some (n, k) ∧
        (v'.filter (fun e => e.2 ≠ 0)).find? (fun e => e.1 = n) =
          (if k - 1 = 0 then none else some (n, k - 1)) := by
  intro v
  induction v with
  | nil =>
    intro n v' h _
    simp [ResourceManager.scanClean] at h
  | cons e rest ih =>
    intro n v' h hnd
    obtain ⟨m, k0⟩ := e
    have hnd1 : m ∉ ResourceManager.keys rest ∧
        (ResourceManager.keys rest).Nodup := by
      simpa [ResourceManager.keys] using hnd
    unfold ResourceManager.scanClean at h
    cases hl : alookup info m with
    | none => rw [hl] at h; exact Option.noConfusion h
    | some i =>
      rw [hl] at h
      have h' : (if i.dirty then
          (ResourceManager.scanClean info rest).map (fun r => (r.1, (m, k0) :: r.2))
        else if k0 = 0 then none
        else some (some m, (m, k0 - 1) :: rest)) = some (some n, v') := h
      clear h
      by_cases hd : i.dirty
      · rw [if_pos hd] at h'
        cases hrec : ResourceManager.scanClean info rest with
        | none => rw [hrec] at h'; exact Option.noConfusion h'
        | some q =>
          obtain ⟨r1, r2⟩ := q
          rw [hrec] at h'
          simp only [Option.map_some', Option.some.injEq, Prod.mk.injEq] at h'
          obtain ⟨hr1, hv'⟩ := h'
          subst hr1
          subst hv'
          obtain ⟨k, hk, hfind, hfind'⟩ := ih hrec hnd1.2
          have hnmem : n ∈ ResourceManager.keys rest := by
            have := List.mem_of_find?_eq_some hfind
            exact List.mem_map_of_mem Prod.fst this
          have hmn : ¬ m = n := fun hmn => hnd1.1 (hmn ▸ hnmem)
          refine ⟨k, hk, ?_, ?_⟩
          · rw [List.find?_cons, show (decide ((m, k0).1 = n)) = false by simp [hmn]]
            exact hfind
          · rw [List.filter_cons]
            by_cases hk0 : k0 = 0
            · rw [show (decide ((m, k0).2 ≠ 0)) = false by simp [hk0],
                if_neg (by simp)]
              exact hfind'
            · rw [show (decide ((m, k0).2 ≠ 0)) = true by simp [hk0], if_pos rfl,
                List.find?_cons, show (decide ((m, k0).1 = n)) = false by simp [hmn]]
              exact hfind'
      · rw [if_neg hd] at h'
        by_cases hk0 : k0 = 0
        · rw [if_pos hk0] at h'; exact Option.noConfusion h'
        · rw [if_neg hk0] at h'
          simp only [Option.some.injEq, Prod.mk.injEq, Option.some.injEq] at h'
          obtain ⟨hm, hv'⟩ := h'
          obtain rfl := hm
          subst hv'
          refine ⟨k0, hk0, ?_, ?_⟩
          · rw [List.find?_cons, show (decide ((m, k0).1 = m)) = true by simp]
          · rw [List.filter_cons]
            by_cases hz : k0 - 1 = 0
            · rw [show (decide ((m, k0 - 1).2 ≠ 0)) = false by simp [hz],
                if_neg (by simp), if_pos hz]
              refine List.find?_eq_none.2 ?_
              intro a ha
              have ha1 : a ∈ rest := List.mem_of_mem_filter ha
              have : a.1 ∈ ResourceManager.keys rest :=
                List.mem_map_of_mem Prod.fst ha1
              simp only [decide_eq_true_eq]
              intro haa
              rw [haa] at this
              exact hnd1.1 this
            · rw [show (decide ((m, k0 - 1).2 ≠ 0)) = true by simp [hz], if_pos rfl,
                List.find?_cons, show (decide ((m, k0 - 1).1 = m)) = true by simp,
                if_neg hz]

/-- C4 is false as stated: a single `UpdateResource` from a fresh node
can record cached count 3 while the idle pool for that node is empty. -/
theorem c4_counterexample :
    (ResourceManager.update ResourceManager.new 0 ⟨[("f", 3)], 16, 8⟩).map
        (fun rm => (ResourceManager.countFor rm.cached "f" 0, rm.idleLen 0)) =
      some (3, 0) ∧ ¬ (3 ≤ 0) := by
  exact ⟨by decide, by decide⟩

/-- C4 amended: what the code maintains is the local accounting of the
cache-hit path — when `find_idle f` selects clean node `n` from the
cache and returns a worker, the cached count for `(f, n)` and the
number of idle workers of `n` each decrease by exactly one.  The
global inequality `count ≤ idle` is not an invariant
(see `c4_counterexample`). -/
theorem c4_cache_hit_accounting (rm : ResourceManager) (f : String)
    (v v' : List (Nat × Nat)) (n : Nat) (w : Worker) (rm' : ResourceManager)
    (hc : alookup rm.cached f = some v)
    (hscan : ResourceManager.scanClean rm.info v = some (some n, v'))
    (hnd : (ResourceManager.keys v).Nodup)
    (hidnd : (ResourceManager.keys rm.idle).Nodup)
    (hf : rm.find_idle f = some (some w, rm')) :
    ResourceManager.countFor rm'.cached f n + 1 =
      ResourceManager.countFor rm.cached f n ∧
    rm'.idleLen n + 1 = rm.idleLen n := by
  obtain ⟨k, hk0, hfind, hfind'⟩ := scanClean_found hscan hnd
  simp only [ResourceManager.find_idle, hc, hscan] at hf
  cases hidle : alookup rm.idle n with
  | none =>
    rw [hidle] at hf
    simp at hf
  | some iv =>
    rw [hidle] at hf
    cases hlast : iv.getLast? with
    | none =>
      simp only [vecPop, hlast] at hf
      simp at hf
    | some wlast =>
      simp only [vecPop, hlast, Option.some.injEq, Prod.mk.injEq] at hf
      obtain ⟨-, hrm'⟩ := hf
      subst hrm'
      constructor
      · unfold ResourceManager.countFor
        have hset : alookup (aset rm.cached f (v'.filter (fun e => e.2 ≠ 0))) f =
            some (v'.filter (fun e => e.2 ≠ 0)) :=
          alookup_aset_self (by rw [hc]; rfl) _
        dsimp only
        rw [hset, hc, Option.getD_some, Option.getD_some, hfind, hfind']
        by_cases hz : k - 1 = 0
        · rw [if_pos hz]
          simp only [Option.map_none', Option.map_some', Option.getD_none,
            Option.getD_some]
          omega
        · rw [if_neg hz]
          simp only [Option.map_some', Option.getD_some]
          omega
      · unfold ResourceManager.idleLen
        have hivne : iv ≠ [] := by
          intro hnil; rw [hnil] at hlast; exact Option.noConfusion hlast
        have hset : alookup (aset rm.idle n iv.dropLast) n = some iv.dropLast :=
          alookup_aset_self (by rw [hidle]; rfl) _
        have hndk : (ResourceManager.keys (aset rm.idle n iv.dropLast)).Nodup := by
          rw [keys_aset]; exact hidnd
        dsimp only
        rw [alookup_filter_isEmpty hndk hset, hidle]
        have hlen : iv.dropLast.length = iv.length - 1 := List.length_dropLast iv
        have hpos : 0 < iv.length := List.length_pos.2 hivne
        by_cases hdrop : iv.dropLast.isEmpty
        · rw [if_pos hdrop]
          have : iv.dropLast.length = 0 := by
            rw [List.isEmpty_iff_length_eq_zero] at hdrop
            exact hdrop
          simp only [Option.getD_none, Option.getD_some, List.length_nil]
          omega
        · rw [if_neg hdrop]
          simp only [Option.getD_some]
          omega

/-- Witness for C4's amended statement on scenario 1's state. -/
theorem c4_cache_hit_accounting_witness :
    ResourceManager.countFor
        ((ResourceManager.find_idle rm0 "hello").getD (none, rm0)).2.cached
        "hello" 0 + 1 =
      ResourceManager.countFor rm0.cached "hello" 0 ∧
    ((ResourceManager.find_idle rm0 "hello").getD (none, rm0)).2.idleLen 0 + 1 =
      rm0.idleLen 0 := by
  refine c4_cache_hit_accounting rm0 "hello" [(0, 2), (1, 1)] [(0, 1), (1, 1)] 0
    wA2 ((ResourceManager.find_idle rm0 "hello").getD (none, rm0)).2
    (by decide) (by decide) (by decide) (by decide) (by decide)

/-- After `update`, the node is registered with a cleared dirty bit
(shared helper for C5). -/
theorem update_dirty (rm : ResourceManager) (a : Nat) (ri : ResourceInfo) :
    (ResourceManager.update rm a ri).map
        (fun rm' => (alookup rm'.info a).map NodeInfo.dirty) = some (some false) := by
  unfold ResourceManager.update ResourceManager.try_add_node
  by_cases h : (alookup rm.info a).isSome
  · rcases Option.isSome_iff_exists.1 h with ⟨ni0, hni0⟩
    have h1 : alookup (aset rm.info a { ni0 with dirty := false }) a =
        some { ni0 with dirty := false } := alookup_aset_self h _
    have h2 : (alookup (aset rm.info a { ni0 with dirty := false }) a).isSome := by
      rw [h1]; rfl
    simp [hni0, h1, alookup_aset_self h2]
  · have hn : alookup rm.info a = none := Option.not_isSome_iff_eq_none.1 h
    have h1 : alookup (rm.info ++ [(a, NodeInfo.new a)]) a = some (NodeInfo.new a) := by
      rw [alookup_append_of_none hn, alookup_cons, if_pos rfl]
    have h2 : (alookup (rm.info ++ [(a, NodeInfo.new a)]) a).isSome := by
      rw [h1]; rfl
    simp only [NodeInfo.new] at h1 h2
    simp [hn, h1, alookup_aset_self h2, NodeInfo.new]

/-- C5: after `update` (the `UpdateResource` handler) from any address,
the node exists in the registry with `dirty = false`, including when it
did not previously exist; in particular `remove` followed by `update`
from the same address re-creates the node with a clean dirty bit. -/
theorem c5_update_clears_dirty (rm : ResourceManager) (a : Nat) (ri : ResourceInfo) :
    (ResourceManager.update rm a ri).map
        (fun rm' => (alookup rm'.info a).map NodeInfo.dirty) = some (some false) ∧
    (ResourceManager.update (ResourceManager.remove rm a) a ri).map
        (fun rm' => (alookup rm'.info a).map NodeInfo.dirty) = some (some false) :=
  ⟨update_dirty rm a ri, update_dirty (ResourceManager.remove rm a) a ri⟩

/-! ### Claim C9: `reset` -/

/-- C9: `reset` empties the idle pool, leaves the node registry, the
cache index and the wait list unchanged, and the terminated workers
(those sent a `Terminate` task) are exactly the workers of the idle
pool. -/
theorem c9_reset_frame (rm : ResourceManager) :
    (ResourceManager.reset rm).2.idle = [] ∧
    (ResourceManager.reset rm).2.info = rm.info ∧
    (ResourceManager.reset rm).2.cached = rm.cached ∧
    (ResourceManager.reset rm).2.wait_list = rm.wait_list ∧
    (∀ w : Worker, w ∈ (ResourceManager.reset rm).1 ↔ ∃ e ∈ rm.idle, w ∈ e.2) := by
  refine ⟨rfl, rfl, rfl, rfl, fun w => ?_⟩
  simp only [ResourceManager.reset, List.mem_flatten, List.mem_map]
  constructor
  · rintro ⟨l, ⟨e, he, rfl⟩, hw⟩
    exact ⟨e, he, (List.mem_reverse).1 hw⟩
  · rintro ⟨e, he, hw⟩
    exact ⟨e.2.reverse, ⟨e, he, rfl⟩, (List.mem_reverse).2 hw⟩

/-! ### Claims C6 and C7: the worker retry loop -/

/-- Each loop iteration sends exactly one `GetVm`, so at most `fuel`
acquisitions happen. -/
theorem processAttempts_getVm_le (env : Nat → AttemptEnv) :
    ∀ (fuel i : Nat), countMsg Msg.GetVm (processAttempts env i fuel).2 ≤ fuel := by
  intro fuel
  induction fuel with
  | zero => intro i; simp [processAttempts, countMsg]
  | succ n ih =>
    intro i
    have hrec := ih (i + 1)
    simp only [processAttempts]
    cases h : (env i).getVm with
    | error e => cases e <;> simp [countMsg]
    | ok vm =>
      cases hl : vm.launched
      · simp only [hl]
        cases hla : (env i).launch with
        | error e => simp [countMsg]; omega
        | ok u =>
          cases hp : (env i).procReq with
          | ok rsp => simp [countMsg]
          | error e => simp [countMsg]; omega
      · simp only [hl]
        cases hp : (env i).procReq with
        | ok rsp => simp [countMsg]
        | error e => simp [countMsg]; omega

/-- When every attempt reaches `process_req` and fails there, the loop
exhausts its fuel, returns `ProcessRequestFailed`, and sends one
`DeleteVm` per attempt. -/
theorem processAttempts_all_fail (env : Nat → AttemptEnv) :
    ∀ (fuel i : Nat), (∀ j, j < fuel → procFails (env (i + j)) = true) →
      (processAttempts env i fuel).1 = RequestStatus.ProcessRequestFailed ∧
      countMsg Msg.DeleteVm (processAttempts env i fuel).2 = fuel := by
  intro fuel
  induction fuel with
  | zero => intro i _; simp [processAttempts, countMsg]
  | succ n ih =>
    intro i h
    have h0 : procFails (env i) = true := by
      have := h 0 (Nat.succ_pos n)
      simpa using this
    have hrest : ∀ j, j < n → procFails (env (i + 1 + j)) = true := by
      intro j hj
      have := h (j + 1) (Nat.succ_lt_succ hj)
      have harith : i + (j + 1) = i + 1 + j := by omega
      rwa [harith] at this
    have ihr := ih (i + 1) hrest
    simp only [processAttempts]
    unfold procFails at h0
    cases hg : (env i).getVm with
    | error e => rw [hg] at h0; simp at h0
    | ok vm =>
      rw [hg] at h0
      simp only [Bool.and_eq_true, Bool.or_eq_true] at h0
      cases hp : (env i).procReq with
      | ok rsp => rw [hp] at h0; simp at h0
      | error e =>
        cases hl : vm.launched
        · simp only [hl]
          cases hla : (env i).launch with
          | error e' =>
            rw [hla, hl] at h0
            simp at h0
          | ok u =>
            simp only [hp]
            refine ⟨ihr.1, ?_⟩
            simp [countMsg, ihr.2]
            omega
        · simp only [hl, hp]
          refine ⟨ihr.1, ?_⟩
          simp [countMsg, ihr.2]
          omega

/-- C6: every run of `handle_request` makes at most 5 VM acquisitions,
and when `process_req` fails on five consecutive attempts the status is
`ProcessRequestFailed` with exactly five `DeleteVm` messages sent. -/
theorem c6_retry_bound (env : Nat → AttemptEnv)
    (h : ∀ i, i < 5 → procFails (env i) = true) :
    (∀ env' : Nat → AttemptEnv, countMsg Msg.GetVm (handle_request env').2 ≤ 5) ∧
    (handle_request env).1 = RequestStatus.ProcessRequestFailed ∧
    countMsg Msg.DeleteVm (handle_request env).2 = 5 := by
  refine ⟨fun env' => processAttempts_getVm_le env' 5 0, ?_, ?_⟩
  · exact (processAttempts_all_fail env 5 0 (by simpa using h)).1
  · exact (processAttempts_all_fail env 5 0 (by simpa using h)).2

/-- Witness for C6 at scenario 5's environment. -/
theorem c6_retry_bound_witness :
    (∀ env' : Nat → AttemptEnv, countMsg Msg.GetVm (handle_request env').2 ≤ 5) ∧
    (handle_request envC6).1 = RequestStatus.ProcessRequestFailed ∧
    countMsg Msg.DeleteVm (handle_request envC6).2 = 5 :=
  c6_retry_bound envC6 (by decide)

/-- C7: a `GetVm` failure is terminal — `handle_request` sends exactly
one `GetVm` (no retry) and maps the error to the claimed status:
`InsufficientEvict` and `LowMemory` to `ResourceExhausted`,
`FunctionNotExist` to `FunctionNotExist`, anything else to `Dropped`. -/
theorem c7_acquire_error_terminal (env : Nat → AttemptEnv) (e : RmError)
    (h : (env 0).getVm = .error e) :
    handle_request env =
      ((match e with
        | .InsufficientEvict => RequestStatus.ResourceExhausted
        | .LowMemory _ => RequestStatus.ResourceExhausted
        | .FunctionNotExist => RequestStatus.FunctionNotExist
        | .Other => RequestStatus.Dropped),
       [Msg.GetVm]) := by
  cases e <;> simp [handle_request, processAttempts, h]

/-- Witness for C7 on an `InsufficientEvict` acquisition failure. -/
theorem c7_acquire_error_terminal_witness :
    handle_request (fun _ => ⟨.error .InsufficientEvict, .ok (), .ok ""⟩) =
      (RequestStatus.ResourceExhausted, [Msg.GetVm]) :=
  c7_acquire_error_terminal (fun _ => ⟨.error .InsufficientEvict, .ok (), .ok ""⟩)
    .InsufficientEvict rfl

end Snapfaas
